import Mathlib

/-!
Shallow embedding of the LeanHsm hierarchical state-machine engine
(`src/StateMachine.h`, namespace `LeanHsm`, class `StateMachine`).

States live in a list (`Graph`); the C++ `const State*` pointers become
indices into that list, and pointer equality becomes index equality.
The C++ `std::function` callbacks (entry/exit actions, the global
entry/exit hooks and transition actions) are opaque side effects; we
model each by an optional numeric label and record every invocation,
together with every log line, in an observable trace.  The engine's
loops (`while (a)` over parent chains, the exit loop of `DoTransition`,
the tail recursion of the initial-transition cascade) can diverge on
malformed graphs, so each is given an explicit fuel parameter; a `none`
result means the fuel ran out, i.e. the C++ loop did not terminate
within that many iterations.  A C++ `std::vector` consumed via
`back()`/`pop_back()` is modelled as a Lean list consumed from the
head, i.e. the list holds the vector's elements in reverse order.
-/

inductive Severity
  | info
  | warning
  | error
deriving DecidableEq

/-- One observable step: a log line (`LogEntry`) or the invocation of a
user callback (global exit hook `mOnExit`, per-state exit action, the
transition's action, global entry hook `mOnEntry`, per-state entry
action), identified by its numeric label. -/
inductive TraceItem
  | log (s : Severity) (msg : String)
  | callHookExit (a : Nat)
  | callExit (a : Nat)
  | callAction (a : Nat)
  | callHookEntry (a : Nat)
  | callEntry (a : Nat)
deriving DecidableEq

/-- `StateMachine::Transition`: event id, optional target state,
optional action.  `StartIn` (initial) transitions leave `eventId` at
its default and set `target`; `When` transitions set `eventId` and
optionally `target` (absent target = internal transition). -/
structure Transition where
  eventId : Nat := 0
  target : Option Nat := none
  action : Option Nat := none
deriving DecidableEq

/-- `StateMachine::State`: name, optional parent, optional entry and
exit actions, initial transition (default: no target), ordered outgoing
transitions. -/
structure State where
  name : String := ""
  parent : Option Nat := none
  entry : Option Nat := none
  exit : Option Nat := none
  initialTransition : Transition := {}
  transitions : List Transition := []
deriving DecidableEq

abbrev Graph := List State

/-- Dereference a state pointer (index). -/
def getSt (g : Graph) (i : Nat) : Option State := List.get? g i

/-- The parent pointer of state `i`. -/
def parentOf (g : Graph) (i : Nat) : Option Nat :=
  (getSt g i).bind fun s => s.parent

/-- The target of the initial transition of state `i`. -/
def initTargetOf (g : Graph) (i : Nat) : Option Nat :=
  (getSt g i).bind fun s => s.initialTransition.target

/-- The mutable engine: `mCurrentState` plus the cross-cutting hooks
registered by `OnEntryAndExit`. -/
structure Machine where
  mCurrentState : Option Nat := none
  mOnEntry : Option Nat := none
  mOnExit : Option Nat := none
deriving DecidableEq

/-- The constructor `StateMachine(topState, log, e2s)`: sets
`mCurrentState(&topState)`; a C++ reference is never null. -/
def mkStateMachine (topState : Nat) : Machine :=
  { mCurrentState := some topState }

/-- `while (a) { aPath.push_back(a); a = a->parent; }` — the chain from
`a` to its root, leaf first.  `none` = the loop exceeded `fuel`
iterations (cyclic parents) or an index was dangling. -/
def upChain (g : Graph) : Nat → Option Nat → Option (List Nat)
  | _, none => some []
  | 0, some _ => none
  | fuel+1, some i =>
    (getSt g i).bind fun s =>
      (upChain g fuel s.parent).map fun rest => i :: rest

/-- The popping loop of `GetCommonAncestorPath`, acting on the two
chains reversed (root first, so the vector's `back()` is the list
head): pop while the heads agree, remembering the last agreeing node in
`anc`; return the rest of `b`'s chain and the deepest common node. -/
def popCommon : List Nat → List Nat → Option Nat → List Nat × Option Nat
  | x :: xs, y :: ys, anc =>
    if x = y then popCommon xs ys (some y) else (y :: ys, anc)
  | _, ys, anc => (ys, anc)

/-- `StateMachine::GetCommonAncestorPath(a, b)`.  The returned vector
is modelled back-first: the head is the vector's `back()`, so the head
is the common ancestor (when one was found) and the last element is
`b`. -/
def GetCommonAncestorPath (g : Graph) (fuel : Nat) (a b : Nat) : Option (List Nat) :=
  match upChain g fuel (some a), upChain g fuel (some b) with
  | some aPath, some bPath =>
    match popCommon aPath.reverse bPath.reverse none with
    | (rest, some ancestor) => some (ancestor :: rest)
    | (rest, none) => some rest
  | _, _ => none

/-- Trace of one optional callback invocation (`if (f) { f(*this); }`). -/
def optCall (f : Nat → TraceItem) : Option Nat → List TraceItem
  | none => []
  | some a => [f a]

/-- The exit loop of `DoTransition`:
`while (mCurrentState != ancestor) { onExit hook; exit action; move to
parent if any }`.  Second component `none` = the loop did not finish
within `fuel` iterations. -/
def exitLoop (g : Graph) (onExit : Option Nat) (ancestor : Nat) :
    Nat → Nat → List TraceItem × Option Nat
  | 0, cur => if cur = ancestor then ([], some cur) else ([], none)
  | fuel+1, cur =>
    if cur = ancestor then ([], some cur)
    else
      match getSt g cur with
      | none => ([], none)
      | some s =>
        let step := optCall TraceItem.callHookExit onExit ++ optCall TraceItem.callExit s.exit
        let res := exitLoop g onExit ancestor fuel (s.parent.getD cur)
        (step ++ res.1, res.2)

/-- The body of one entry step: `mOnEntry` hook then the state's own
entry action. -/
def entryCallsOf (g : Graph) (hook : Option Nat) (i : Nat) : List TraceItem :=
  optCall TraceItem.callHookEntry hook ++
    optCall TraceItem.callEntry ((getSt g i).bind fun s => s.entry)

/-- The entry loop of `DoTransition`: pop the path back-first, set
`mCurrentState`, run the hook then the entry action.  Returns the trace
and the final current state. -/
def entryLoop (g : Graph) (onEntry : Option Nat) : Nat → List Nat → List TraceItem × Nat
  | cur, [] => ([], cur)
  | _, i :: rest =>
    let res := entryLoop g onEntry i rest
    (entryCallsOf g onEntry i ++ res.1, res.2)

/-- Outcome of one non-recursive pass of `DoTransition`: failure of the
embedding (fuel ran out / dangling index), a `return`, or the tail
recursion on the entered state's initial transition. -/
inductive StepRes
  | fail
  | ret (m : Machine) (b : Bool)
  | cascade (m : Machine) (t : Transition)
deriving DecidableEq

/-- `StateMachine::DoTransition` up to (and excluding) its tail
recursion on the initial transition: null-state check, target
resolution (`target = mCurrentState` when the transition has no
target), the transition log line, exit up to the common ancestor, the
transition action, entry down to the target, and the cascade test
`!wasDescendantOfTarget && mCurrentState->initialTransition.target`.
Also returns the list of states assigned to `mCurrentState` by the
entry loop. -/
def doTransitionStep (g : Graph) (chainFuel : Nat) (m : Machine) (t : Transition) :
    List TraceItem × List Nat × StepRes :=
  match m.mCurrentState with
  | none =>
    ([TraceItem.log Severity.error "Cannot transition from a null state"], [],
      StepRes.ret m false)
  | some cur =>
    let target := t.target.getD cur
    let logT : List TraceItem := [TraceItem.log Severity.info "transition"]
    match GetCommonAncestorPath g chainFuel cur target with
    | none => (logT, [], StepRes.fail)
    | some targetPath =>
      let exitRes : List TraceItem × Option Nat :=
        match targetPath with
        | [] => ([], some cur)
        | ancestor :: _ => exitLoop g m.mOnExit ancestor chainFuel cur
      match exitRes.2 with
      | none => (logT ++ exitRes.1, [], StepRes.fail)
      | some curA =>
        let actTr := optCall TraceItem.callAction t.action
        let rest := targetPath.drop 1
        let entryRes := entryLoop g m.mOnEntry curA rest
        let m2 : Machine := { m with mCurrentState := some entryRes.2 }
        let trace := logT ++ exitRes.1 ++ actTr ++ entryRes.1
        if rest.isEmpty then
          (trace, rest, StepRes.ret m2 true)
        else
          match getSt g entryRes.2 with
          | none => (trace, rest, StepRes.fail)
          | some sFinal =>
            match sFinal.initialTransition.target with
            | some _ => (trace, rest, StepRes.cascade m2 sFinal.initialTransition)
            | none => (trace, rest, StepRes.ret m2 true)

/-- `StateMachine::DoTransition`, with `fuel` bounding the depth of the
initial-transition cascade.  Returns the trace, the states entered, and
(`none` = nontermination within the fuel) the final machine and the
boolean result. -/
def DoTransition (g : Graph) (chainFuel : Nat) :
    Nat → Machine → Transition → List TraceItem × List Nat × Option (Machine × Bool)
  | fuel, m, t =>
    match doTransitionStep g chainFuel m t with
    | (tr, ent, StepRes.fail) => (tr, ent, none)
    | (tr, ent, StepRes.ret m2 b) => (tr, ent, some (m2, b))
    | (tr, ent, StepRes.cascade m2 t2) =>
      match fuel with
      | 0 => (tr, ent, none)
      | f+1 =>
        let res := DoTransition g chainFuel f m2 t2
        (tr ++ res.1, ent ++ res.2.1, res.2.2)

/-- The search loop of `HandeleEvent`: find the first transition for
`e` in the current state's ordered list, else bubble to the parent.
`some (some (s, t))` = found `t` at state `s`; `some none` = chain
exhausted with no match; `none` = fuel ran out (cyclic parents). -/
def findHandler (g : Graph) (e : Nat) : Nat → Option Nat → Option (Option (Nat × Transition))
  | _, none => some none
  | 0, some _ => none
  | fuel+1, some si =>
    match getSt g si with
    | none => none
    | some s =>
      match s.transitions.find? (fun t => t.eventId == e) with
      | some t => some (some (si, t))
      | none => findHandler g e fuel s.parent

/-- `StateMachine::HandeleEvent` (sic): null-state check, bubbling
search, the "event" log line and `DoTransition` on a match, the warning
and `false` otherwise. -/
def HandeleEvent (g : Graph) (chainFuel cascadeFuel : Nat) (m : Machine) (e : Nat) :
    List TraceItem × List Nat × Option (Machine × Bool) :=
  match m.mCurrentState with
  | none =>
    ([TraceItem.log Severity.error "Cannot transition from a null state"], [],
      some (m, false))
  | some cur =>
    match findHandler g e chainFuel (some cur) with
    | none => ([], [], none)
    | some none =>
      ([TraceItem.log Severity.warning "No transition for event"], [], some (m, false))
    | some (some st) =>
      let res := DoTransition g chainFuel cascadeFuel m st.2
      (TraceItem.log Severity.info "event" :: res.1, res.2.1, res.2.2)

/-- The lineage loop of `StateMachine::IsInState`. -/
def isInChain (g : Graph) (s : Nat) : Nat → Option Nat → Option Bool
  | _, none => some false
  | 0, some _ => none
  | fuel+1, some cs =>
    if cs = s then some true
    else
      match getSt g cs with
      | none => none
      | some st => isInChain g s fuel st.parent

/-- `StateMachine::IsInState(s)`. -/
def IsInState (g : Graph) (fuel : Nat) (m : Machine) (s : Nat) : Option Bool :=
  isInChain g s fuel m.mCurrentState

/-- `StateMachine::CurrentState()` (the dereferenced pointer). -/
def CurrentState (m : Machine) : Option Nat := m.mCurrentState

/-! ## Chain lemmas -/

theorem upChain_none (g : Graph) (fuel : Nat) : upChain g fuel none = some [] := by
  cases fuel <;> rfl

theorem upChain_some_cons {g : Graph} {fuel i : Nat} {l : List Nat}
    (h : upChain g fuel (some i) = some l) :
    ∃ f s rest, fuel = f + 1 ∧ getSt g i = some s ∧
      upChain g f s.parent = some rest ∧ l = i :: rest := by
  cases fuel with
  | zero => simp [upChain] at h
  | succ f =>
    unfold upChain at h
    rw [Option.bind_eq_some] at h
    obtain ⟨s, hg, h⟩ := h
    rw [Option.map_eq_some'] at h
    obtain ⟨rest, hu, hl⟩ := h
    exact ⟨f, s, rest, rfl, hg, hu, hl.symm⟩

theorem upChain_mono {g : Graph} {o : Option Nat} {l : List Nat} :
    ∀ {fuel fuel' : Nat}, fuel ≤ fuel' → upChain g fuel o = some l →
      upChain g fuel' o = some l := by
  intro fuel
  induction fuel using Nat.strong_induction_on generalizing o l with
  | _ fuel ih =>
    intro fuel' hle h
    cases o with
    | none => rw [upChain_none] at h; rw [upChain_none]; exact h
    | some i =>
      obtain ⟨f, s, rest, hf, hg, hu, hl⟩ := upChain_some_cons h
      subst hf hl
      cases fuel' with
      | zero => omega
      | succ f' =>
        have hrec : upChain g f' s.parent = some rest := ih f (by omega) (by omega) hu
        unfold upChain
        rw [hg, Option.some_bind, hrec, Option.map_some']

theorem upChain_length_le {g : Graph} {o : Option Nat} {l : List Nat} :
    ∀ {fuel : Nat}, upChain g fuel o = some l → l.length ≤ fuel := by
  intro fuel
  induction fuel using Nat.strong_induction_on generalizing o l with
  | _ fuel ih =>
    intro h
    cases o with
    | none =>
      rw [upChain_none] at h
      cases h
      simp
    | some i =>
      obtain ⟨f, s, rest, hf, _, hu, hl⟩ := upChain_some_cons h
      subst hf hl
      have := ih f (by omega) hu
      simp only [List.length_cons]
      omega

theorem upChain_suffix {g : Graph} {x : Nat} {l2 : List Nat} :
    ∀ {fuel c : Nat} {l1 : List Nat},
      upChain g fuel (some c) = some (l1 ++ x :: l2) →
      upChain g fuel (some x) = some (x :: l2) := by
  intro fuel c l1
  induction l1 generalizing fuel c with
  | nil =>
    intro h
    simp only [List.nil_append] at h
    obtain ⟨f, s, rest, hf, hg, hu, hl⟩ := upChain_some_cons h
    injection hl with hx hrest
    subst hx
    exact h
  | cons a l1 ih =>
    intro h
    obtain ⟨f, s, rest, hf, hg, hu, hl⟩ := upChain_some_cons h
    subst hf
    simp at hl
    obtain ⟨hac, hrest⟩ := hl
    rw [← hrest] at hu
    cases hp : s.parent with
    | none =>
      rw [hp, upChain_none] at hu
      exact absurd hu.symm (by simp)
    | some p =>
      rw [hp] at hu
      exact upChain_mono (Nat.le_succ f) (ih hu)

theorem upChain_mem_getSt {g : Graph} {fuel : Nat} {o : Option Nat} {l : List Nat}
    (h : upChain g fuel o = some l) {j : Nat} (hj : j ∈ l) :
    ∃ s, getSt g j = some s := by
  obtain ⟨p, q, hpq⟩ := List.append_of_mem hj
  subst hpq
  cases o with
  | none =>
    rw [upChain_none] at h
    exact absurd h (by simp)
  | some c =>
    have hs := upChain_suffix h
    obtain ⟨f, s, rest, _, hg, _, _⟩ := upChain_some_cons hs
    exact ⟨s, hg⟩

/-! ## Common-ancestor-path lemmas -/

theorem popCommon_append :
    ∀ (p xs ys : List Nat) (anc : Option Nat) (a : Nat), p.getLast? = some a →
      popCommon (p ++ xs) (p ++ ys) anc = popCommon xs ys (some a) := by
  intro p
  induction p with
  | nil => intro xs ys anc a ha; simp at ha
  | cons q p ih =>
    intro xs ys anc a ha
    simp only [List.cons_append, popCommon, if_pos rfl]
    cases p with
    | nil =>
      simp at ha
      subst ha
      simp
    | cons r p2 =>
      have ha2 : (r :: p2).getLast? = some a := by
        rw [List.getLast?_cons_cons] at ha
        exact ha
      exact ih xs ys (some q) a ha2

theorem popCommon_stop (xs ys : List Nat) (anc : Option Nat)
    (h : ∀ z, xs.head? = some z → ys.head? ≠ some z) :
    popCommon xs ys anc = (ys, anc) := by
  cases xs with
  | nil => rfl
  | cons x xs =>
    cases ys with
    | nil => rfl
    | cons y ys =>
      have hne : x ≠ y := by
        intro hxy
        exact h x (by rfl) (by subst hxy; rfl)
      simp only [popCommon, if_neg hne]

theorem GetCommonAncestorPath_spec {g : Graph} {fuel c b L : Nat} {u v tl : List Nat}
    (hc : upChain g fuel (some c) = some (u ++ L :: tl))
    (hb : upChain g fuel (some b) = some (v ++ L :: tl))
    (hmax : ∀ z, u.getLast? = some z → v.getLast? ≠ some z) :
    GetCommonAncestorPath g fuel c b = some (L :: v.reverse) := by
  have hstop : ∀ z, u.reverse.head? = some z → v.reverse.head? ≠ some z := by
    intro z hz
    rw [List.head?_reverse] at hz ⊢
    exact hmax z hz
  have h1 : (u ++ L :: tl).reverse = (tl.reverse ++ [L]) ++ u.reverse := by simp
  have h2 : (v ++ L :: tl).reverse = (tl.reverse ++ [L]) ++ v.reverse := by simp
  have hpop : popCommon (u ++ L :: tl).reverse (v ++ L :: tl).reverse none =
      (v.reverse, some L) := by
    rw [h1, h2, popCommon_append _ _ _ _ L (List.getLast?_concat _),
      popCommon_stop _ _ _ hstop]
  unfold GetCommonAncestorPath
  simp only [hc, hb, hpop]

/-! ## Exit- and entry-phase lemmas -/

/-- The body of one exit step: `mOnExit` hook then the state's own exit
action. -/
def exitCallsOf (g : Graph) (hook : Option Nat) (i : Nat) : List TraceItem :=
  optCall TraceItem.callHookExit hook ++
    optCall TraceItem.callExit ((getSt g i).bind fun s => s.exit)

/-- The exit phase as the specification reads: for every state of `l`
(the walk from the old leaf up to, excluding, the LCA), the global exit
hook (if registered) then that state's exit action (if any). -/
def exitPhaseSpec (g : Graph) (hook : Option Nat) (l : List Nat) : List TraceItem :=
  (l.map (exitCallsOf g hook)).flatten

/-- The entry phase as the specification reads: for every state of `l`
(the walk from the child of the LCA down to the target), the global
entry hook (if registered) then that state's entry action (if any). -/
def entryPhaseSpec (g : Graph) (hook : Option Nat) (l : List Nat) : List TraceItem :=
  (l.map (entryCallsOf g hook)).flatten

theorem exitLoop_self (g : Graph) (hk : Option Nat) (anc : Nat) :
    ∀ fuel, exitLoop g hk anc fuel anc = ([], some anc) := by
  intro fuel
  cases fuel <;> simp [exitLoop]

theorem exitLoop_spec {g : Graph} {hk : Option Nat} {L : Nat} {tl : List Nat} :
    ∀ {u : List Nat} {fuel cfuel c : Nat},
      upChain g fuel (some c) = some (u ++ L :: tl) →
      L ∉ u → u.length ≤ cfuel →
      exitLoop g hk L cfuel c = (exitPhaseSpec g hk u, some L) := by
  intro u
  induction u with
  | nil =>
    intro fuel cfuel c h _ _
    obtain ⟨f, s, rest, hf, hg, hu, hl⟩ := upChain_some_cons h
    simp only [List.nil_append] at hl
    injection hl with hx hrest
    subst hx
    rw [exitLoop_self]
    rfl
  | cons a u ih =>
    intro fuel cfuel c h hL hlen
    obtain ⟨f, s, rest, hf, hg, hu, hl⟩ := upChain_some_cons h
    simp only [List.cons_append] at hl
    injection hl with hx hrest
    subst hx
    subst hrest
    have hcL : a ≠ L := fun hcl => hL (by rw [← hcl]; exact List.mem_cons_self _ _)
    cases hp : s.parent with
    | none =>
      rw [hp, upChain_none] at hu
      exact absurd hu.symm (by simp)
    | some p =>
      rw [hp] at hu
      cases cfuel with
      | zero => simp at hlen
      | succ cf =>
        have hrec := ih hu (fun hm => hL (List.mem_cons_of_mem _ hm))
          (Nat.le_of_succ_le_succ hlen)
        unfold exitLoop
        rw [if_neg hcL, hg]
        simp only [hp, Option.getD_some, hrec]
        simp [exitPhaseSpec, exitCallsOf, hg]

theorem entryLoop_spec (g : Graph) (hk : Option Nat) :
    ∀ (l : List Nat) (cur : Nat),
      entryLoop g hk cur l = (entryPhaseSpec g hk l, l.getLastD cur) := by
  intro l
  induction l with
  | nil => intro cur; rfl
  | cons i rest ih =>
    intro cur
    unfold entryLoop
    rw [ih i]
    have h2 : rest.getLastD i = (i :: rest).getLastD cur := by
      cases rest <;> simp [List.getLastD, List.getLast?_cons_cons]
    rw [h2]
    simp [entryPhaseSpec]

/-! ## One pass of DoTransition, characterized -/

/-- The initial transition stored in state `i` (junk when `i` dangles). -/
def initTransOf (g : Graph) (i : Nat) : Transition :=
  match getSt g i with
  | some s => s.initialTransition
  | none => {}

theorem doTransitionStep_spec {g : Graph} {cf : Nat} {m : Machine} {t : Transition}
    {c b L : Nat} {u v w : List Nat}
    (hcur : m.mCurrentState = some c)
    (hbdef : t.target.getD c = b)
    (hcc : upChain g cf (some c) = some (u ++ L :: w))
    (hbb : upChain g cf (some b) = some (v ++ L :: w))
    (hmax : ∀ z, u.getLast? = some z → v.getLast? ≠ some z)
    (hLu : L ∉ u) :
    doTransitionStep g cf m t =
      (TraceItem.log Severity.info "transition" ::
        (exitPhaseSpec g m.mOnExit u ++ optCall TraceItem.callAction t.action ++
         entryPhaseSpec g m.mOnEntry v.reverse),
       v.reverse,
       if v.isEmpty then StepRes.ret { m with mCurrentState := some b } true
       else if (initTargetOf g b).isSome then
         StepRes.cascade { m with mCurrentState := some b } (initTransOf g b)
       else StepRes.ret { m with mCurrentState := some b } true) := by
  have hlen_u : u.length ≤ cf := by
    have h := upChain_length_le hcc
    simp only [List.length_append, List.length_cons] at h
    omega
  have hgcap := GetCommonAncestorPath_spec hcc hbb hmax
  have hexit : exitLoop g m.mOnExit L cf c = (exitPhaseSpec g m.mOnExit u, some L) :=
    exitLoop_spec hcc hLu hlen_u
  have hentry := entryLoop_spec g m.mOnEntry v.reverse L
  obtain ⟨fb, sb, restb, hfb, hsb, hub, hlb⟩ := upChain_some_cons hbb
  cases v with
  | nil =>
    simp only [List.nil_append] at hlb hbb
    injection hlb with hbL hrest
    subst hbL
    simp only [doTransitionStep, hcur, hbdef, hgcap, List.drop_succ_cons,
      List.drop_zero, List.reverse_nil, hexit, entryLoop, List.isEmpty_nil,
      if_true, entryPhaseSpec, List.map_nil, List.flatten_nil, List.append_nil]
    try rfl
  | cons b0 v2 =>
    have hb0 : b0 = b := by
      have h2 := hlb
      simp only [List.cons_append, List.cons.injEq] at h2
      exact h2.1
    subst hb0
    have hrev : (b0 :: v2).reverse = v2.reverse ++ [b0] := by simp
    have hfinal : (b0 :: v2).reverse.getLastD L = b0 := by
      rw [hrev, List.getLastD_eq_getLast?, List.getLast?_concat]
      rfl
    have hne : ((b0 :: v2).reverse.isEmpty) = false := by
      rw [hrev]
      simp
    have hinit : ((getSt g b0).bind fun s => s.initialTransition.target) =
        sb.initialTransition.target := by rw [hsb]; rfl
    simp only [doTransitionStep, hcur, hbdef, hgcap, List.drop_succ_cons,
      List.drop_zero, hexit, hentry, hfinal, hne, initTargetOf, initTransOf,
      hsb, hinit, Option.some_bind]
    cases hit : sb.initialTransition.target with
    | none => simp [hsb, hit]
    | some d => simp [hsb, hit]

theorem doTransitionStep_shape (g : Graph) (cf : Nat) (m : Machine) (t : Transition)
    {c : Nat} (hcur : m.mCurrentState = some c) :
    (doTransitionStep g cf m t).2.2 = StepRes.fail ∨
    (∃ x, (doTransitionStep g cf m t).2.2 =
      StepRes.ret { m with mCurrentState := some x } true) ∨
    (∃ x t2, (doTransitionStep g cf m t).2.2 =
      StepRes.cascade { m with mCurrentState := some x } t2) := by
  simp only [doTransitionStep, hcur]
  split
  · exact Or.inl rfl
  · split
    · exact Or.inl rfl
    · split
      · exact Or.inr (Or.inl ⟨_, rfl⟩)
      · split
        · exact Or.inl rfl
        · split
          · exact Or.inr (Or.inr ⟨_, _, rfl⟩)
          · exact Or.inr (Or.inl ⟨_, rfl⟩)

theorem DoTransition_some {g : Graph} {cf : Nat} :
    ∀ {n : Nat} {m : Machine} {t : Transition} {c : Nat} {m2 : Machine} {bb : Bool},
      m.mCurrentState = some c →
      (DoTransition g cf n m t).2.2 = some (m2, bb) →
      bb = true ∧ ∃ x, m2.mCurrentState = some x := by
  intro n
  induction n using Nat.strong_induction_on with
  | _ n ih =>
    intro m t c m2 bb hcur h
    rcases doTransitionStep_shape g cf m t hcur with hs | ⟨x, hs⟩ | ⟨x, t2, hs⟩
    · unfold DoTransition at h
      rcases hstep : doTransitionStep g cf m t with ⟨tr, ent, r⟩
      rw [hstep] at h
      rw [hstep] at hs
      simp at hs
      subst hs
      simp at h
    · unfold DoTransition at h
      rcases hstep : doTransitionStep g cf m t with ⟨tr, ent, r⟩
      rw [hstep] at h
      rw [hstep] at hs
      simp at hs
      subst hs
      simp at h
      obtain ⟨h1, h2⟩ := h
      subst h2
      exact ⟨rfl, x, by rw [← h1]⟩
    · unfold DoTransition at h
      rcases hstep : doTransitionStep g cf m t with ⟨tr, ent, r⟩
      rw [hstep] at h
      rw [hstep] at hs
      simp at hs
      subst hs
      cases n with
      | zero => simp at h
      | succ n2 =>
        simp only at h
        exact ih n2 (by omega) rfl h

/-! ## Trace-shape lemmas -/

theorem optCall_items {f : Nat → TraceItem} {o : Option Nat} {x : TraceItem}
    (hx : x ∈ optCall f o) : ∃ a, x = f a := by
  cases o with
  | none => simp [optCall] at hx
  | some a =>
    simp [optCall] at hx
    exact ⟨a, hx⟩

theorem exitLoop_items {g : Graph} {hk : Option Nat} {anc : Nat} :
    ∀ (fuel cur : Nat) (x : TraceItem), x ∈ (exitLoop g hk anc fuel cur).1 →
      (∃ a, x = TraceItem.callHookExit a) ∨ ∃ a, x = TraceItem.callExit a := by
  intro fuel
  induction fuel with
  | zero =>
    intro cur x hx
    unfold exitLoop at hx
    split at hx <;> simp at hx
  | succ f ih =>
    intro cur x hx
    unfold exitLoop at hx
    split at hx
    · simp at hx
    · split at hx
      · simp at hx
      · simp only [List.append_assoc, List.mem_append] at hx
        rcases hx with hx | hx | hx
        · exact Or.inl (optCall_items hx)
        · exact Or.inr (optCall_items hx)
        · exact ih _ x hx

theorem entryLoop_items {g : Graph} {hk : Option Nat} :
    ∀ (l : List Nat) (cur : Nat) (x : TraceItem), x ∈ (entryLoop g hk cur l).1 →
      (∃ a, x = TraceItem.callHookEntry a) ∨ ∃ a, x = TraceItem.callEntry a := by
  intro l
  induction l with
  | nil => intro cur x hx; simp [entryLoop] at hx
  | cons i rest ih =>
    intro cur x hx
    unfold entryLoop at hx
    simp only [entryCallsOf, List.append_assoc, List.mem_append] at hx
    rcases hx with hx | hx | hx
    · exact Or.inl (optCall_items hx)
    · exact Or.inr (optCall_items hx)
    · exact ih i x hx

theorem doTransitionStep_items {g : Graph} {cf : Nat} {m : Machine} {t : Transition}
    {c : Nat} (hcur : m.mCurrentState = some c) :
    ∀ x ∈ (doTransitionStep g cf m t).1, ∀ msg, x ≠ TraceItem.log Severity.error msg := by
  intro x hx msg hxe
  subst hxe
  simp only [doTransitionStep, hcur] at hx
  split at hx
  · simp at hx
  · next targetPath heqq =>
    cases targetPath with
    | nil =>
      simp only [List.drop_nil, List.isEmpty_nil, if_true, entryLoop,
        List.append_nil, List.append_assoc, List.mem_append, List.mem_singleton] at hx
      rcases hx with hx | hx
      · simp at hx
      · rcases optCall_items hx with ⟨a, ha⟩
        simp at ha
    | cons anc tp2 =>
      split at hx
      · simp only [List.append_assoc, List.mem_append, List.mem_singleton] at hx
        rcases hx with hx | hx
        · simp at hx
        · rcases exitLoop_items _ _ _ hx with ⟨a, ha⟩ | ⟨a, ha⟩ <;> simp at ha
      · split at hx <;>
          [skip;
           split at hx <;> [skip; split at hx <;> skip]] <;>
        · simp only [List.append_assoc, List.mem_append, List.mem_singleton] at hx
          rcases hx with hx | hx | hx | hx
          · simp at hx
          · rcases exitLoop_items _ _ _ hx with ⟨a, ha⟩ | ⟨a, ha⟩ <;> simp at ha
          · rcases optCall_items hx with ⟨a, ha⟩
            simp at ha
          · rcases entryLoop_items _ _ _ hx with ⟨a, ha⟩ | ⟨a, ha⟩ <;> simp at ha

/-! ## Event-lookup lemmas -/

/-- The outgoing transition list of state `i`. -/
def transitionsOf (g : Graph) (i : Nat) : List Transition :=
  match getSt g i with
  | some s => s.transitions
  | none => []

/-- The specification's description of event lookup: walk the ancestor
chain `l` (leaf first); at each state take the first transition whose
event id equals `e`; the first state with a match wins. -/
def firstMatchInChain (g : Graph) (e : Nat) : List Nat → Option (Nat × Transition)
  | [] => none
  | si :: rest =>
    match getSt g si with
    | none => none
    | some s =>
      match s.transitions.find? (fun t => t.eventId == e) with
      | some t => some (si, t)
      | none => firstMatchInChain g e rest

theorem findHandler_spec {g : Graph} {e : Nat} :
    ∀ {fuel : Nat} {o : Option Nat} {l : List Nat},
      upChain g fuel o = some l →
      findHandler g e fuel o = some (firstMatchInChain g e l) := by
  intro fuel
  induction fuel using Nat.strong_induction_on with
  | _ fuel ih =>
    intro o l h
    cases o with
    | none =>
      rw [upChain_none] at h
      injection h with h
      subst h
      cases fuel <;> rfl
    | some i =>
      obtain ⟨f, s, rest, hf, hg, hu, hl⟩ := upChain_some_cons h
      subst hf hl
      unfold findHandler firstMatchInChain
      rw [hg]
      simp only
      cases hfind : s.transitions.find? (fun t => t.eventId == e) with
      | some tr => simp
      | none => simpa using ih f (by omega) hu

theorem firstMatchInChain_none {g : Graph} {e : Nat} {l : List Nat}
    (h : ∀ si ∈ l, ∀ tr ∈ transitionsOf g si, ¬tr.eventId = e) :
    firstMatchInChain g e l = none := by
  induction l with
  | nil => rfl
  | cons si rest ih =>
    unfold firstMatchInChain
    cases hg : getSt g si with
    | none => rfl
    | some s =>
      have hnone : s.transitions.find? (fun t => t.eventId == e) = none := by
        rw [List.find?_eq_none]
        intro tr htr
        have := h si (List.mem_cons_self _ _) tr (by rw [transitionsOf, hg]; exact htr)
        simpa using this
      simp only [hnone]
      exact ih fun si2 h2 => h si2 (List.mem_cons_of_mem _ h2)

/-! ## IsInState lemma -/

theorem isInChain_spec {g : Graph} {x : Nat} :
    ∀ {fuel : Nat} {o : Option Nat} {l : List Nat},
      upChain g fuel o = some l →
      isInChain g x fuel o = some (decide (x ∈ l)) := by
  intro fuel
  induction fuel using Nat.strong_induction_on with
  | _ fuel ih =>
    intro o l h
    cases o with
    | none =>
      rw [upChain_none] at h
      injection h with h
      subst h
      cases fuel <;> simp [isInChain]
    | some i =>
      obtain ⟨f, s, rest, hf, hg, hu, hl⟩ := upChain_some_cons h
      subst hf hl
      unfold isInChain
      by_cases hix : i = x
      · subst hix
        simp
      · rw [if_neg hix, hg]
        simp only [ih f (by omega) hu]
        have hiff : (x ∈ i :: rest) ↔ (x ∈ rest) := by
          constructor
          · intro hm
            rcases List.mem_cons.mp hm with he | hm2
            · exact absurd he.symm hix
            · exact hm2
          · exact List.mem_cons_of_mem _
        refine congrArg some ?_
        rw [decide_eq_decide]
        exact hiff.symm

/-! ## Rank functions: well-formedness of the state graph -/

/-- Bounded-rank and parent-decreasing check for one state: the rank is
below `cf` and a parent has strictly smaller rank.  A rank function
witnesses that parent chains are finite and acyclic. -/
def rankOKb (g : Graph) (r : Nat → Nat) (cf : Nat) (i : Nat) : Bool :=
  decide (r i < cf) &&
    (match parentOf g i with
     | none => true
     | some p => decide (r p < r i))

/-- Every state's rank is below `cf` and ranks strictly decrease along
parent edges. -/
def RanksOK (g : Graph) (r : Nat → Nat) (cf : Nat) : Prop :=
  ∀ i, i < g.length → rankOKb g r cf i = true

/-- Initial-transition check for one state: the initial target's parent
chain is computable within `cf` and passes strictly through `i`
(i.e. the target is a strict descendant of `i`). -/
def descOKb (g : Graph) (cf : Nat) (i : Nat) : Bool :=
  match initTargetOf g i with
  | none => true
  | some d =>
    match upChain g cf (some d) with
    | some (_ :: l2) => l2.contains i
    | _ => false

/-- Every state's initial-transition target, when present, is a strict
descendant of that state. -/
def InitOK (g : Graph) (cf : Nat) : Prop :=
  ∀ i, i < g.length → descOKb g cf i = true

theorem getSt_lt {g : Graph} {i : Nat} {s : State} (h : getSt g i = some s) :
    i < g.length := by
  unfold getSt at h
  rw [List.get?_eq_some] at h
  exact h.1

theorem rank_parent {g : Graph} {r : Nat → Nat} {cf : Nat} (hR : RanksOK g r cf)
    {i p : Nat} {s : State} (hg : getSt g i = some s) (hp : s.parent = some p) :
    r p < r i := by
  have h := hR i (getSt_lt hg)
  unfold rankOKb at h
  rw [Bool.and_eq_true] at h
  have h2 := h.2
  rw [show parentOf g i = some p by rw [parentOf, hg]; exact hp] at h2
  simpa using h2

theorem rank_lt_cf {g : Graph} {r : Nat → Nat} {cf : Nat} (hR : RanksOK g r cf)
    {i : Nat} {s : State} (hg : getSt g i = some s) : r i < cf := by
  have h := hR i (getSt_lt hg)
  unfold rankOKb at h
  rw [Bool.and_eq_true] at h
  simpa using h.1

theorem chain_pairwise {g : Graph} {r : Nat → Nat} {cf : Nat} (hR : RanksOK g r cf) :
    ∀ {fuel : Nat} {o : Option Nat} {l : List Nat},
      upChain g fuel o = some l → l.Pairwise fun a b2 => r b2 < r a := by
  intro fuel
  induction fuel using Nat.strong_induction_on with
  | _ fuel ih =>
    intro o l h
    cases o with
    | none =>
      rw [upChain_none] at h
      injection h with h
      subst h
      exact List.Pairwise.nil
    | some i =>
      obtain ⟨f, s, rest, hf, hg, hu, hl⟩ := upChain_some_cons h
      subst hf hl
      have hrest : rest.Pairwise fun a b2 => r b2 < r a := ih f (by omega) hu
      refine List.Pairwise.cons ?_ hrest
      intro j hj
      cases hp : s.parent with
      | none =>
        rw [hp, upChain_none] at hu
        injection hu with hu
        subst hu
        simp at hj
      | some p =>
        rw [hp] at hu
        obtain ⟨f2, s2, rest2, hf2, hg2, hu2, hl2⟩ := upChain_some_cons hu
        subst hl2
        have hpi : r p < r i := rank_parent hR hg hp
        rcases List.mem_cons.mp hj with hjp | hj2
        · rw [hjp]; exact hpi
        · have := List.rel_of_pairwise_cons hrest hj2
          omega

theorem chain_nodup {g : Graph} {r : Nat → Nat} {cf : Nat} (hR : RanksOK g r cf)
    {fuel : Nat} {o : Option Nat} {l : List Nat}
    (h : upChain g fuel o = some l) : l.Nodup := by
  refine (chain_pairwise hR h).imp ?_
  intro a b2 hab heq
  rw [heq] at hab
  omega

theorem descOK_unpack {g : Graph} {cf : Nat} (hI : InitOK g cf) {i d : Nat} {s : State}
    (hg : getSt g i = some s) (hd : initTargetOf g i = some d) :
    ∃ l1 l2, upChain g cf (some d) = some (l1 ++ i :: l2) ∧ l1 ≠ [] := by
  have h := hI i (getSt_lt hg)
  unfold descOKb at h
  simp only [hd] at h
  cases hch : upChain g cf (some d) with
  | none => rw [hch] at h; simp at h
  | some l =>
    rw [hch] at h
    cases l with
    | nil => simp at h
    | cons d0 l2 =>
      have hmem : i ∈ l2 := by simp at h; exact h
      obtain ⟨p, q, hpq⟩ := List.append_of_mem hmem
      subst hpq
      exact ⟨d0 :: p, q, rfl, by simp⟩

/-! ## Unfolding equations for DoTransition -/

theorem DoTransition_fail_eq {g : Graph} {cf n : Nat} {m : Machine} {t : Transition}
    {tr : List TraceItem} {ent : List Nat}
    (h : doTransitionStep g cf m t = (tr, ent, StepRes.fail)) :
    DoTransition g cf n m t = (tr, ent, none) := by
  simp only [DoTransition, h]

theorem DoTransition_ret_eq {g : Graph} {cf n : Nat} {m : Machine} {t : Transition}
    {tr : List TraceItem} {ent : List Nat} {m2 : Machine} {b : Bool}
    (h : doTransitionStep g cf m t = (tr, ent, StepRes.ret m2 b)) :
    DoTransition g cf n m t = (tr, ent, some (m2, b)) := by
  simp only [DoTransition, h]

theorem DoTransition_cascade_zero_eq {g : Graph} {cf : Nat} {m : Machine} {t : Transition}
    {tr : List TraceItem} {ent : List Nat} {m2 : Machine} {t2 : Transition}
    (h : doTransitionStep g cf m t = (tr, ent, StepRes.cascade m2 t2)) :
    DoTransition g cf 0 m t = (tr, ent, none) := by
  simp only [DoTransition, h]

theorem DoTransition_cascade_eq {g : Graph} {cf n : Nat} {m : Machine} {t : Transition}
    {tr : List TraceItem} {ent : List Nat} {m2 : Machine} {t2 : Transition}
    (h : doTransitionStep g cf m t = (tr, ent, StepRes.cascade m2 t2)) :
    DoTransition g cf (n + 1) m t =
      (tr ++ (DoTransition g cf n m2 t2).1,
       ent ++ (DoTransition g cf n m2 t2).2.1,
       (DoTransition g cf n m2 t2).2.2) := by
  conv_lhs => rw [DoTransition]
  rw [h]

/-! ## Termination of the initial-transition cascade -/

theorem cascade_terminates {g : Graph} {r : Nat → Nat} {cf : Nat}
    (hR : RanksOK g r cf) (hI : InitOK g cf) :
    ∀ (n : Nat) (m : Machine) (t : Transition) (T d : Nat) (l1 l2 : List Nat),
      m.mCurrentState = some T →
      t.target = some d →
      upChain g cf (some d) = some (l1 ++ T :: l2) →
      l1 ≠ [] →
      cf - r d ≤ n + 1 →
      (∃ m2, (DoTransition g cf n m t).2.2 = some (m2, true)) ∧
      ((DoTransition g cf n m t).2.1.Pairwise fun a b2 => r a < r b2) ∧
      (∀ x ∈ (DoTransition g cf n m t).2.1, r T < r x) := by
  intro n
  induction n using Nat.strong_induction_on with
  | _ n ih =>
    intro m t T d l1 l2 hcur ht hch hl1 hn
    have hchT : upChain g cf (some T) = some (T :: l2) := upChain_suffix hch
    have hbdef : t.target.getD T = d := by rw [ht]; rfl
    have hspec := doTransitionStep_spec (u := []) (v := l1) (w := l2) hcur hbdef
      (by simpa using hchT) hch (fun z hz => by simp at hz) (by simp)
    have hpw := chain_pairwise hR hch
    obtain ⟨fd, sd, restd, hfd, hgd, hud, hld⟩ := upChain_some_cons hch
    cases l1 with
    | nil => exact absurd rfl hl1
    | cons d0 l1' =>
      have hd0 : d0 = d := by
        have h2 := hld
        simp only [List.cons_append, List.cons.injEq] at h2
        exact h2.1
      subst hd0
      obtain ⟨hpw1, hpw2, hcross⟩ :=
        List.pairwise_append.mp (by exact hpw)
      have hTl1 : ∀ x ∈ d0 :: l1', r T < r x := fun x hx =>
        hcross x hx T (List.mem_cons_self _ _)
      have hrev : ((d0 :: l1').reverse).Pairwise (fun a b2 => r a < r b2) := by
        rw [List.pairwise_reverse]
        exact hpw1
      have hxle : ∀ x ∈ d0 :: l1', r x ≤ r d0 := by
        intro x hx
        rcases List.mem_cons.mp hx with he | hx2
        · rw [he]
        · exact le_of_lt (List.rel_of_pairwise_cons hpw1 hx2)
      cases hit : initTargetOf g d0 with
      | none =>
        have hres : doTransitionStep g cf m t =
            (TraceItem.log Severity.info "transition" ::
              (exitPhaseSpec g m.mOnExit [] ++ optCall TraceItem.callAction t.action ++
               entryPhaseSpec g m.mOnEntry (d0 :: l1').reverse),
             (d0 :: l1').reverse,
             StepRes.ret { m with mCurrentState := some d0 } true) := by
          rw [hspec]
          simp [hit]
        rw [DoTransition_ret_eq hres]
        refine ⟨⟨_, rfl⟩, hrev, ?_⟩
        intro x hx
        exact hTl1 x (List.mem_reverse.mp hx)
      | some d2 =>
        have ht2 : (initTransOf g d0).target = some d2 := by
          unfold initTransOf
          rw [hgd]
          unfold initTargetOf at hit
          rw [hgd] at hit
          simpa using hit
        obtain ⟨p1, p2, hch2, hp1⟩ := descOK_unpack hI hgd hit
        have hpw2b := chain_pairwise hR hch2
        obtain ⟨fd2, sd2, restd2, hfd2, hgd2, hud2, hld2⟩ := upChain_some_cons hch2
        have hd2p1 : d2 ∈ p1 := by
          cases p1 with
          | nil => exact absurd rfl hp1
          | cons z p1' =>
            have h2 := hld2
            simp only [List.cons_append, List.cons.injEq] at h2
            rw [h2.1]
            exact List.mem_cons_self _ _
        have hdd2 : r d0 < r d2 := by
          obtain ⟨_, _, hcross2⟩ := List.pairwise_append.mp (by exact hpw2b)
          exact hcross2 d2 hd2p1 d0 (List.mem_cons_self _ _)
        have hrd2cf : r d2 < cf := rank_lt_cf hR hgd2
        have hrd0 : r T < r d0 := hTl1 d0 (List.mem_cons_self _ _)
        have hn1 : 1 ≤ n := by omega
        obtain ⟨n2, rfl⟩ : ∃ n2, n = n2 + 1 := ⟨n - 1, by omega⟩
        have hres : doTransitionStep g cf m t =
            (TraceItem.log Severity.info "transition" ::
              (exitPhaseSpec g m.mOnExit [] ++ optCall TraceItem.callAction t.action ++
               entryPhaseSpec g m.mOnEntry (d0 :: l1').reverse),
             (d0 :: l1').reverse,
             StepRes.cascade { m with mCurrentState := some d0 } (initTransOf g d0)) := by
          rw [hspec]
          simp [hit]
        obtain ⟨hterm, hpair2, hgt2⟩ := ih n2 (by omega)
          { m with mCurrentState := some d0 } (initTransOf g d0) d0 d2 p1 p2
          rfl ht2 hch2 hp1 (by omega)
        rw [DoTransition_cascade_eq hres]
        refine ⟨?_, ?_, ?_⟩
        · obtain ⟨m2, hm2⟩ := hterm
          exact ⟨m2, by simpa using hm2⟩
        · simp only
          rw [List.pairwise_append]
          refine ⟨hrev, hpair2, ?_⟩
          intro a ha bb hbb
          have h1 : r a ≤ r d0 := hxle a (List.mem_reverse.mp ha)
          have h2 : r d0 < r bb := hgt2 bb hbb
          omega
        · intro x hx
          simp only [List.mem_append] at hx
          rcases hx with hx | hx
          · exact hTl1 x (List.mem_reverse.mp hx)
          · have := hgt2 x hx
            omega

/-! ## Result-shape helpers -/

/-- The current state recorded in a step outcome. -/
def resCurrent : StepRes → Option Nat
  | StepRes.fail => none
  | StepRes.ret m _ => m.mCurrentState
  | StepRes.cascade m _ => m.mCurrentState

/-- Whether a step outcome takes the initial-transition cascade. -/
def isCascade : StepRes → Bool
  | StepRes.cascade _ _ => true
  | _ => false

/-! ## A concrete graph for witnesses: the door model of `Door.cpp`
(states `Exists > Closed > {Locked, Unlocked}`, `Exists > Opened`),
with numeric labels attached to every entry/exit action and a
self-transition added on `Closed` (event 9).  Events: 0 = Lock,
1 = Unlock, 2 = Open, 3 = Close. -/

def doorGraph : Graph := [
  { name := "Exists", entry := some 100, exit := some 101,
    initialTransition := { target := some 1 } },
  { name := "Closed", parent := some 0, entry := some 110, exit := some 111,
    initialTransition := { target := some 3, action := some 130 },
    transitions := [ { eventId := 0, target := some 2, action := some 120 },
                     { eventId := 2, target := some 4 },
                     { eventId := 9, target := some 1, action := some 121 } ] },
  { name := "Locked", parent := some 1, entry := some 112, exit := some 113,
    transitions := [ { eventId := 1, target := some 3 },
                     { eventId := 2, action := some 122 } ] },
  { name := "Unlocked", parent := some 1, entry := some 114, exit := some 115,
    transitions := [] },
  { name := "Opened", parent := some 0, entry := some 116, exit := some 117,
    transitions := [ { eventId := 3, target := some 1, action := some 123 } ] } ]

/-- A door engine positioned in `Unlocked`, with global hooks 8/9. -/
def mU : Machine := { mCurrentState := some 3, mOnEntry := some 8, mOnExit := some 9 }

/-! ## Claims -/

/-- C1: for every dispatched transition from current leaf `C` to target
(`target = C` when absent), one pass of transition execution performs,
in exactly this order: the transition log line; the exit phase, which
for every state from `C` up to but excluding the LCA runs the global
exit hook (if registered) then that state's own exit action (if any),
and stops exactly at the LCA; then the transition's action (if any);
then the entry phase, which for each state from the child of the LCA
down to the target runs the global entry hook then that state's own
entry action, updating the current state to each entered state in turn
so that the final current state is the target. -/
theorem claim_C1_transition_phase_order {g : Graph} {cf : Nat} {m : Machine}
    {t : Transition} {c L : Nat} {u v w : List Nat}
    (hcur : m.mCurrentState = some c)
    (hcc : upChain g cf (some c) = some (u ++ L :: w))
    (hbb : upChain g cf (some (t.target.getD c)) = some (v ++ L :: w))
    (hmax : ∀ z, u.getLast? = some z → v.getLast? ≠ some z)
    (hLu : L ∉ u) :
    (doTransitionStep g cf m t).1 =
      TraceItem.log Severity.info "transition" ::
        (exitPhaseSpec g m.mOnExit u ++ optCall TraceItem.callAction t.action ++
         entryPhaseSpec g m.mOnEntry v.reverse) ∧
    exitLoop g m.mOnExit L cf c = (exitPhaseSpec g m.mOnExit u, some L) ∧
    (doTransitionStep g cf m t).2.1 = v.reverse ∧
    resCurrent (doTransitionStep g cf m t).2.2 = some (t.target.getD c) := by
  have hlen : u.length ≤ cf := by
    have h := upChain_length_le hcc
    simp only [List.length_append, List.length_cons] at h
    omega
  have hspec := doTransitionStep_spec hcur rfl hcc hbb hmax hLu
  refine ⟨by rw [hspec], exitLoop_spec hcc hLu hlen, by rw [hspec], ?_⟩
  rw [hspec]
  simp only
  split
  · rfl
  · split
    · rfl
    · rfl

/-- C1 witness: dispatching Open (`event 2`, `Unlocked → Opened`) in the
door graph: exits `Unlocked` then `Closed` (hook before own action each
time), no transition action, enters `Opened`. -/
theorem claim_C1_witness :
    mU.mCurrentState = some 3 ∧
    upChain doorGraph 9 (some 3) = some ([3, 1] ++ 0 :: []) ∧
    upChain doorGraph 9 (some ((some 4 : Option Nat).getD 3)) = some ([4] ++ 0 :: []) ∧
    (0 : Nat) ∉ [3, 1] ∧
    ((doTransitionStep doorGraph 9 mU { eventId := 2, target := some 4 }).1 =
      TraceItem.log Severity.info "transition" ::
        (exitPhaseSpec doorGraph mU.mOnExit [3, 1] ++
         optCall TraceItem.callAction ({ eventId := 2, target := some 4 } : Transition).action ++
         entryPhaseSpec doorGraph mU.mOnEntry [4].reverse) ∧
     exitLoop doorGraph mU.mOnExit 0 9 3 = (exitPhaseSpec doorGraph mU.mOnExit [3, 1], some 0) ∧
     (doTransitionStep doorGraph 9 mU { eventId := 2, target := some 4 }).2.1 = [4].reverse ∧
     resCurrent (doTransitionStep doorGraph 9 mU { eventId := 2, target := some 4 }).2.2 =
       some (((some 4 : Option Nat).getD 3))) :=
  ⟨rfl, by decide, by decide, by decide,
    claim_C1_transition_phase_order (u := [3, 1]) (v := [4]) (w := []) rfl
      (by decide) (by decide) (by intro z hz; simp at hz; subst hz; decide) (by decide)⟩

theorem machine_update_self {m : Machine} {c : Nat} (h : m.mCurrentState = some c) :
    { m with mCurrentState := some c } = m := by
  cases m
  simp only at h
  simp [h]

/-- C6: dispatching any event on an engine with no current state logs
an Error-severity line, returns failure, and changes nothing. -/
theorem claim_C6_uninitialized_dispatch {g : Graph} {cf df : Nat} {m : Machine} {e : Nat}
    (hcur : m.mCurrentState = none) :
    HandeleEvent g cf df m e =
      ([TraceItem.log Severity.error "Cannot transition from a null state"], [],
       some (m, false)) := by
  simp only [HandeleEvent, hcur]

/-- C6 witness: a null-state engine on the door graph. -/
theorem claim_C6_witness :
    (Machine.mk none none none).mCurrentState = none ∧
    HandeleEvent doorGraph 9 9 (Machine.mk none none none) 0 =
      ([TraceItem.log Severity.error "Cannot transition from a null state"], [],
       some (Machine.mk none none none, false)) :=
  ⟨rfl, claim_C6_uninitialized_dispatch rfl⟩

/-- C5: when neither the current state nor any state of its ancestor
chain has a transition whose event id equals `e`, `HandeleEvent` logs a
Warning, returns failure, and leaves the machine unchanged. -/
theorem claim_C5_unhandled_event {g : Graph} {cf df : Nat} {m : Machine} {e c : Nat}
    {l : List Nat}
    (hcur : m.mCurrentState = some c)
    (hchain : upChain g cf (some c) = some l)
    (hnomatch : ∀ si ∈ l, ∀ tr ∈ transitionsOf g si, ¬tr.eventId = e) :
    HandeleEvent g cf df m e =
      ([TraceItem.log Severity.warning "No transition for event"], [], some (m, false)) := by
  have hfm := firstMatchInChain_none hnomatch
  have hfh := findHandler_spec (e := e) hchain
  rw [hfm] at hfh
  simp only [HandeleEvent, hcur, hfh]

/-- C5 witness: event 0 (`Lock`) from `Opened` in the door graph — no
transition for it there or in `Exists`. -/
theorem claim_C5_witness :
    ({ mU with mCurrentState := some 4 } : Machine).mCurrentState = some 4 ∧
    upChain doorGraph 9 (some 4) = some [4, 0] ∧
    (∀ si ∈ [4, 0], ∀ tr ∈ transitionsOf doorGraph si, ¬tr.eventId = 0) ∧
    HandeleEvent doorGraph 9 9 { mU with mCurrentState := some 4 } 0 =
      ([TraceItem.log Severity.warning "No transition for event"], [],
       some ({ mU with mCurrentState := some 4 }, false)) :=
  ⟨rfl, by decide, by decide,
    claim_C5_unhandled_event (l := [4, 0]) rfl (by decide) (by decide)⟩

/-- C3: a matched event transition with an absent target (internal
transition) runs exactly the transition's action: no exit hook or exit
action, no entry hook or entry action, no cascade, the machine is
unchanged, and `HandeleEvent` returns success. -/
theorem claim_C3_internal_transition {g : Graph} {cf df : Nat} {m : Machine}
    {e c i : Nat} {a : List Nat} {t : Transition}
    (hcur : m.mCurrentState = some c)
    (hchain : upChain g cf (some c) = some (c :: a))
    (hfind : findHandler g e cf (some c) = some (some (i, t)))
    (hint : t.target = none) :
    HandeleEvent g cf df m e =
      ([TraceItem.log Severity.info "event", TraceItem.log Severity.info "transition"] ++
         optCall TraceItem.callAction t.action, [], some (m, true)) := by
  have hbdef : t.target.getD c = c := by rw [hint]; rfl
  have hspec := doTransitionStep_spec (u := []) (v := []) (w := a) hcur hbdef
    (by simpa using hchain) (by simpa using hchain)
    (fun z hz => by simp at hz) (by simp)
  have hres : doTransitionStep g cf m t =
      (TraceItem.log Severity.info "transition" :: optCall TraceItem.callAction t.action,
       [], StepRes.ret m true) := by
    rw [hspec, machine_update_self hcur]
    simp [exitPhaseSpec, entryPhaseSpec]
  simp only [HandeleEvent, hcur, hfind, DoTransition_ret_eq hres]
  rfl

/-- C3 witness: `Open` (event 2) while `Locked` in the door graph is an
internal transition (action 122, no target). -/
theorem claim_C3_witness :
    ({ mU with mCurrentState := some 2 } : Machine).mCurrentState = some 2 ∧
    upChain doorGraph 9 (some 2) = some (2 :: [1, 0]) ∧
    findHandler doorGraph 2 9 (some 2) =
      some (some (2, { eventId := 2, action := some 122 })) ∧
    ({ eventId := 2, action := some 122 } : Transition).target = none ∧
    HandeleEvent doorGraph 9 9 { mU with mCurrentState := some 2 } 2 =
      ([TraceItem.log Severity.info "event", TraceItem.log Severity.info "transition"] ++
         optCall TraceItem.callAction ({ eventId := 2, action := some 122 } : Transition).action,
       [], some ({ mU with mCurrentState := some 2 }, true)) :=
  ⟨rfl, by decide, by decide, rfl,
    claim_C3_internal_transition (i := 2) (a := [1, 0]) rfl (by decide) (by decide) rfl⟩

/-- C9: a matched event transition whose explicit target equals the
current state (a self-transition) behaves exactly like an internal
transition: no exit or entry hooks or actions run, no cascade is taken
even when the state has an initial transition defined, only the
transition's action runs, the machine is unchanged, and `HandeleEvent`
returns success. -/
theorem claim_C9_self_transition {g : Graph} {cf df : Nat} {m : Machine}
    {e c i : Nat} {a : List Nat} {t : Transition}
    (hcur : m.mCurrentState = some c)
    (hchain : upChain g cf (some c) = some (c :: a))
    (hfind : findHandler g e cf (some c) = some (some (i, t)))
    (hself : t.target = some c) :
    HandeleEvent g cf df m e =
      ([TraceItem.log Severity.info "event", TraceItem.log Severity.info "transition"] ++
         optCall TraceItem.callAction t.action, [], some (m, true)) := by
  have hbdef : t.target.getD c = c := by rw [hself]; rfl
  have hspec := doTransitionStep_spec (u := []) (v := []) (w := a) hcur hbdef
    (by simpa using hchain) (by simpa using hchain)
    (fun z hz => by simp at hz) (by simp)
  have hres : doTransitionStep g cf m t =
      (TraceItem.log Severity.info "transition" :: optCall TraceItem.callAction t.action,
       [], StepRes.ret m true) := by
    rw [hspec, machine_update_self hcur]
    simp [exitPhaseSpec, entryPhaseSpec]
  simp only [HandeleEvent, hcur, hfind, DoTransition_ret_eq hres]
  rfl

/-- C9 witness: the self-transition `Closed → Closed` (event 9, action
121) in the door graph; `Closed` has an initial transition to
`Unlocked`, yet no cascade is taken and the state stays `Closed`. -/
theorem claim_C9_witness :
    ({ mU with mCurrentState := some 1 } : Machine).mCurrentState = some 1 ∧
    upChain doorGraph 9 (some 1) = some (1 :: [0]) ∧
    findHandler doorGraph 9 9 (some 1) =
      some (some (1, { eventId := 9, target := some 1, action := some 121 })) ∧
    ({ eventId := 9, target := some 1, action := some 121 } : Transition).target = some 1 ∧
    initTargetOf doorGraph 1 = some 3 ∧
    HandeleEvent doorGraph 9 9 { mU with mCurrentState := some 1 } 9 =
      ([TraceItem.log Severity.info "event", TraceItem.log Severity.info "transition"] ++
         optCall TraceItem.callAction
           ({ eventId := 9, target := some 1, action := some 121 } : Transition).action,
       [], some ({ mU with mCurrentState := some 1 }, true)) :=
  ⟨rfl, by decide, by decide, rfl, by decide,
    claim_C9_self_transition (i := 1) (a := [0]) rfl (by decide) (by decide) rfl⟩

/-- C7: with a current state `c` whose ancestor chain is `c :: anc`,
`IsInState x` answers true exactly when `x` is the current state or one
of its transitive ancestors, and `CurrentState` returns the current
state. -/
theorem claim_C7_is_in_state {g : Graph} {fuel : Nat} {m : Machine} {c : Nat}
    {anc : List Nat}
    (hcur : m.mCurrentState = some c)
    (hchain : upChain g fuel (some c) = some (c :: anc)) :
    (∀ x, IsInState g fuel m x = some (decide (x = c ∨ x ∈ anc))) ∧
    CurrentState m = some c := by
  refine ⟨fun x => ?_, hcur⟩
  unfold IsInState
  rw [hcur, isInChain_spec hchain]
  refine congrArg some ?_
  rw [decide_eq_decide]
  simp [List.mem_cons]

/-- C7 witness: in `Unlocked` (state 3), `IsInState` holds for 3, its
ancestors 1 and 0, and fails for the sibling 2 and for `Opened` 4. -/
theorem claim_C7_witness :
    mU.mCurrentState = some 3 ∧
    upChain doorGraph 9 (some 3) = some (3 :: [1, 0]) ∧
    ((∀ x, IsInState doorGraph 9 mU x = some (decide (x = 3 ∨ x ∈ [1, 0]))) ∧
     CurrentState mU = some 3) :=
  ⟨rfl, by decide, claim_C7_is_in_state rfl (by decide)⟩

/-- C2: event lookup searches the current state's ordered transition
list for the first transition matching `e` and bubbles to ancestors
(first matching state wins, embodied by `firstMatchInChain` over the
ancestor chain); whenever a match `(si, tr)` exists anywhere in the
chain and the resulting transition execution terminates, `HandeleEvent`
logs an informational line, executes that transition, and returns true
regardless of what the transition did to the current state. -/
theorem claim_C2_event_lookup {g : Graph} {cf df : Nat} {m : Machine} {e c i : Nat}
    {l : List Nat} {tr : Transition} {m2 : Machine} {bb : Bool}
    (hcur : m.mCurrentState = some c)
    (hchain : upChain g cf (some c) = some l)
    (hfound : firstMatchInChain g e l = some (i, tr))
    (hterm : (DoTransition g cf df m tr).2.2 = some (m2, bb)) :
    findHandler g e cf (some c) = some (firstMatchInChain g e l) ∧
    bb = true ∧
    HandeleEvent g cf df m e =
      (TraceItem.log Severity.info "event" :: (DoTransition g cf df m tr).1,
       (DoTransition g cf df m tr).2.1, some (m2, true)) := by
  have hfh := findHandler_spec (e := e) hchain
  have htrue := DoTransition_some hcur hterm
  refine ⟨hfh, htrue.1, ?_⟩
  rw [hfound] at hfh
  simp only [HandeleEvent, hcur, hfh, hterm, htrue.1]

/-- C2 witness: `Lock` (event 0) from `Unlocked` bubbles to `Closed`,
whose first matching transition goes to `Locked`; the dispatch returns
true. -/
theorem claim_C2_witness :
    mU.mCurrentState = some 3 ∧
    upChain doorGraph 9 (some 3) = some [3, 1, 0] ∧
    firstMatchInChain doorGraph 0 [3, 1, 0] =
      some (1, { eventId := 0, target := some 2, action := some 120 }) ∧
    (DoTransition doorGraph 9 9 mU
        { eventId := 0, target := some 2, action := some 120 }).2.2 =
      some ({ mU with mCurrentState := some 2 }, true) ∧
    (findHandler doorGraph 0 9 (some 3) = some (firstMatchInChain doorGraph 0 [3, 1, 0]) ∧
     true = true ∧
     HandeleEvent doorGraph 9 9 mU 0 =
       (TraceItem.log Severity.info "event" ::
          (DoTransition doorGraph 9 9 mU
            { eventId := 0, target := some 2, action := some 120 }).1,
        (DoTransition doorGraph 9 9 mU
          { eventId := 0, target := some 2, action := some 120 }).2.1,
        some ({ mU with mCurrentState := some 2 }, true))) :=
  ⟨rfl, by decide, by decide, by decide,
    claim_C2_event_lookup (i := 1) rfl (by decide) (by decide) (by decide)⟩

theorem DoTransition_items {g : Graph} {cf : Nat} :
    ∀ {n : Nat} {m : Machine} {t : Transition} {c : Nat},
      m.mCurrentState = some c →
      ∀ x ∈ (DoTransition g cf n m t).1, ∀ msg, x ≠ TraceItem.log Severity.error msg := by
  intro n
  induction n using Nat.strong_induction_on with
  | _ n ih =>
    intro m t c hcur x hx msg
    rcases hstep : doTransitionStep g cf m t with ⟨tr, ent, r⟩
    have hmemtr : ∀ y ∈ tr, ∀ msg2, y ≠ TraceItem.log Severity.error msg2 := by
      intro y hy
      exact doTransitionStep_items hcur y (by rw [hstep]; exact hy)
    cases r with
    | fail =>
      rw [DoTransition_fail_eq hstep] at hx
      exact hmemtr x hx msg
    | ret m2 b =>
      rw [DoTransition_ret_eq hstep] at hx
      exact hmemtr x hx msg
    | cascade m2 t2 =>
      have hsome : ∃ y, m2.mCurrentState = some y := by
        rcases doTransitionStep_shape g cf m t hcur with hs | ⟨y, hs⟩ | ⟨y, t3, hs⟩ <;>
          rw [hstep] at hs
        · exact absurd hs (by simp)
        · exact absurd hs (by simp)
        · refine ⟨y, ?_⟩
          have h2 : m2 = { m with mCurrentState := some y } := by
            injection hs with h3 h4
          rw [h2]
      obtain ⟨y, hy⟩ := hsome
      cases n with
      | zero =>
        rw [DoTransition_cascade_zero_eq hstep] at hx
        exact hmemtr x hx msg
      | succ n2 =>
        rw [DoTransition_cascade_eq hstep] at hx
        simp only [List.mem_append] at hx
        rcases hx with hx | hx
        · exact hmemtr x hx msg
        · exact ih n2 (by omega) hy x hx msg

theorem HandeleEvent_items {g : Graph} {cf df : Nat} {m : Machine} {e c : Nat}
    (hcur : m.mCurrentState = some c) :
    ∀ x ∈ (HandeleEvent g cf df m e).1, ∀ msg, x ≠ TraceItem.log Severity.error msg := by
  intro x hx msg
  simp only [HandeleEvent, hcur] at hx
  split at hx
  · simp at hx
  · simp only [List.mem_singleton] at hx
    subst hx
    intro h
    injection h with h1 _
    exact Severity.noConfusion h1
  · simp only [List.mem_cons] at hx
    rcases hx with hx | hx
    · subst hx
      intro h
      injection h with h1 _
      exact Severity.noConfusion h1
    · exact DoTransition_items hcur x hx msg

/-- C8: the constructor stores the given top state, so the current-state
reference is non-null from construction onward; every terminating
dispatch preserves that non-nullness; with a current state present no
Error line is ever logged by `HandeleEvent` or `DoTransition` (the
null-state branches are unreachable); and `HandeleEvent` called before
`Initialize` on a freshly constructed engine dispatches the event
against the top state's transitions instead of failing. -/
theorem claim_C8_current_state_nonnull {g : Graph} {cf n : Nat} {m : Machine}
    {t : Transition} {c e topState : Nat}
    (hcur : m.mCurrentState = some c) :
    (mkStateMachine topState).mCurrentState = some topState ∧
    (∀ m2 bb, (DoTransition g cf n m t).2.2 = some (m2, bb) →
      ∃ x, m2.mCurrentState = some x) ∧
    (∀ x ∈ (HandeleEvent g cf n m e).1, ∀ msg, x ≠ TraceItem.log Severity.error msg) ∧
    (∀ x ∈ (DoTransition g cf n m t).1, ∀ msg, x ≠ TraceItem.log Severity.error msg) ∧
    (∀ si tr2, findHandler g e cf (some topState) = some (some (si, tr2)) →
      HandeleEvent g cf n (mkStateMachine topState) e =
        (TraceItem.log Severity.info "event" ::
           (DoTransition g cf n (mkStateMachine topState) tr2).1,
         (DoTransition g cf n (mkStateMachine topState) tr2).2.1,
         (DoTransition g cf n (mkStateMachine topState) tr2).2.2)) := by
  refine ⟨rfl, ?_, HandeleEvent_items hcur, DoTransition_items hcur, ?_⟩
  · intro m2 bb h
    exact (DoTransition_some hcur h).2
  · intro si tr2 hfind
    simp only [HandeleEvent, mkStateMachine, hfind]

/-- C8 witness: a fresh engine on the door graph's top state `Exists`
(before any `Initialize`); dispatching `Close` (event 3, unhandled at
`Exists`) and `Open` both work against the top state's chain and no
Error line appears. -/
theorem claim_C8_witness :
    (mkStateMachine 0).mCurrentState = some 0 ∧
    ((mkStateMachine 0).mCurrentState = some 0 ∧
     (∀ m2 bb, (DoTransition doorGraph 9 9 (mkStateMachine 0)
         { eventId := 0, target := some 2, action := some 120 }).2.2 = some (m2, bb) →
       ∃ x, m2.mCurrentState = some x) ∧
     (∀ x ∈ (HandeleEvent doorGraph 9 9 (mkStateMachine 0) 3).1,
       ∀ msg, x ≠ TraceItem.log Severity.error msg) ∧
     (∀ x ∈ (DoTransition doorGraph 9 9 (mkStateMachine 0)
         { eventId := 0, target := some 2, action := some 120 }).1,
       ∀ msg, x ≠ TraceItem.log Severity.error msg) ∧
     (∀ si tr2, findHandler doorGraph 3 9 (some 0) = some (some (si, tr2)) →
       HandeleEvent doorGraph 9 9 (mkStateMachine 0) 3 =
         (TraceItem.log Severity.info "event" ::
            (DoTransition doorGraph 9 9 (mkStateMachine 0) tr2).1,
          (DoTransition doorGraph 9 9 (mkStateMachine 0) tr2).2.1,
          (DoTransition doorGraph 9 9 (mkStateMachine 0) tr2).2.2))) :=
  ⟨rfl, claim_C8_current_state_nonnull (c := 0) rfl⟩

/-! ## A two-tree forest: current state and target with no common
ancestor.  State 0 is the parentless root of one tree (exit action 7),
state 1 the parentless root of another. -/

def twoTrees : Graph := [ { name := "A", exit := some 7 }, { name := "B" } ]

theorem twoTrees_spin : ∀ k, exitLoop twoTrees (some 9) 1 k 0 =
    ((List.replicate k [TraceItem.callHookExit 9, TraceItem.callExit 7]).flatten, none) := by
  intro k
  induction k with
  | zero => rfl
  | succ k2 ih =>
    unfold exitLoop
    rw [if_neg (by decide)]
    have hg0 : getSt twoTrees 0 = some { name := "A", exit := some 7 } := rfl
    simp only [hg0, Option.getD_none, ih, List.replicate_succ, List.flatten_cons]
    rfl

theorem twoTrees_stuck : ∀ (cf2 df2 : Nat),
    (DoTransition twoTrees cf2 df2 { mCurrentState := some 0, mOnExit := some 9 }
      { target := some 1 }).2.2 = none := by
  intro cf2 df2
  cases cf2 with
  | zero =>
    have hstep : doTransitionStep twoTrees 0
        ({ mCurrentState := some 0, mOnExit := some 9 } : Machine)
        { target := some 1 } =
        ([TraceItem.log Severity.info "transition"], [], StepRes.fail) := by decide
    rw [DoTransition_fail_eq hstep]
  | succ k =>
    have hg0 : getSt twoTrees 0 = some { name := "A", exit := some 7 } := rfl
    have hg1 : getSt twoTrees 1 = some { name := "B" } := rfl
    have hch0 : upChain twoTrees (k + 1) (some 0) = some [0] := by
      unfold upChain
      rw [hg0, Option.some_bind,
        show ({ name := "A", exit := some 7 } : State).parent = none from rfl, upChain_none]
      rfl
    have hch1 : upChain twoTrees (k + 1) (some 1) = some [1] := by
      unfold upChain
      rw [hg1, Option.some_bind,
        show ({ name := "B" } : State).parent = none from rfl, upChain_none]
      rfl
    have hgcap : GetCommonAncestorPath twoTrees (k + 1) 0 1 = some [1] := by
      unfold GetCommonAncestorPath
      rw [hch0, hch1]
      rfl
    have hsp2 : (exitLoop twoTrees (some 9) 1 (k + 1) 0).2 = none := by
      rw [twoTrees_spin]
    have hstep : doTransitionStep twoTrees (k + 1)
        ({ mCurrentState := some 0, mOnExit := some 9 } : Machine)
        { target := some 1 } =
        (TraceItem.log Severity.info "transition" ::
           (exitLoop twoTrees (some 9) 1 (k + 1) 0).1, [], StepRes.fail) := by
      simp only [doTransitionStep, Option.getD_some, hgcap, hsp2]
      rfl
    rw [DoTransition_fail_eq hstep]

/-- C10: when current state `c` and target `b` share an ancestor (their
chains have the common suffix `L :: tl` with `L` the least common
ancestor), `GetCommonAncestorPath` returns a non-empty path whose
back (list head) is the LCA, and the exit phase terminates, stopping
exactly at that ancestor.  The precondition is necessary: in the
two-tree forest `twoTrees`, where the chains of the current state `0`
and the target `1` are the disjoint `[0]` and `[1]`, the exit loop
never terminates for any fuel — it repeatedly invokes the exit hook
and the exit action of the parentless root `0` — and the transition
never completes, whatever the fuel bounds. -/
theorem claim_C10_lca_and_divergence {g : Graph} {cf : Nat} {k : Option Nat}
    {c b L : Nat} {u v w : List Nat}
    (hcc : upChain g cf (some c) = some (u ++ L :: w))
    (hbb : upChain g cf (some b) = some (v ++ L :: w))
    (hmax : ∀ z, u.getLast? = some z → v.getLast? ≠ some z)
    (hLu : L ∉ u) :
    (GetCommonAncestorPath g cf c b = some (L :: v.reverse) ∧
     L :: v.reverse ≠ [] ∧
     exitLoop g k L cf c = (exitPhaseSpec g k u, some L)) ∧
    (upChain twoTrees 9 (some 0) = some [0] ∧
     upChain twoTrees 9 (some 1) = some [1] ∧
     (∀ k, exitLoop twoTrees (some 9) 1 k 0 =
       ((List.replicate k [TraceItem.callHookExit 9, TraceItem.callExit 7]).flatten, none)) ∧
     (∀ cf2 df2, (DoTransition twoTrees cf2 df2
         { mCurrentState := some 0, mOnExit := some 9 }
         { target := some 1 }).2.2 = none)) := by
  have hlen : u.length ≤ cf := by
    have h := upChain_length_le hcc
    simp only [List.length_append, List.length_cons] at h
    omega
  exact ⟨⟨GetCommonAncestorPath_spec hcc hbb hmax, by simp,
    exitLoop_spec hcc hLu hlen⟩,
    by decide, by decide, twoTrees_spin, twoTrees_stuck⟩

/-- C10 witness: `Locked` (2, chain `[2,1,0]`) and `Opened` (4, chain
`[4,0]`) share the ancestor `Exists` (0); the path is `[0, 4]` and the
exit loop stops at 0 after exiting 2 and 1. -/
theorem claim_C10_witness :
    upChain doorGraph 9 (some 2) = some ([2, 1] ++ 0 :: []) ∧
    upChain doorGraph 9 (some 4) = some ([4] ++ 0 :: []) ∧
    (0 : Nat) ∉ [2, 1] ∧
    ((GetCommonAncestorPath doorGraph 9 2 4 = some (0 :: [4].reverse) ∧
      (0 : Nat) :: [4].reverse ≠ [] ∧
      exitLoop doorGraph (some 9) 0 9 2 = (exitPhaseSpec doorGraph (some 9) [2, 1], some 0)) ∧
     (upChain twoTrees 9 (some 0) = some [0] ∧
      upChain twoTrees 9 (some 1) = some [1] ∧
      (∀ k, exitLoop twoTrees (some 9) 1 k 0 =
        ((List.replicate k [TraceItem.callHookExit 9, TraceItem.callExit 7]).flatten, none)) ∧
      (∀ cf2 df2, (DoTransition twoTrees cf2 df2
          { mCurrentState := some 0, mOnExit := some 9 }
          { target := some 1 }).2.2 = none))) :=
  ⟨by decide, by decide, by decide,
    claim_C10_lca_and_divergence (k := some 9) (u := [2, 1]) (v := [4]) (w := [])
      (by decide) (by decide) (by intro z hz; simp at hz; subst hz; decide) (by decide)⟩

theorem pairwise_lt_nodup {r : Nat → Nat} {l : List Nat}
    (hp : l.Pairwise fun a b2 => r a < r b2) : l.Nodup :=
  hp.imp fun hlt heq => by rw [heq] at hlt; exact absurd hlt (lt_irrefl _)

/-- C4: on a graph whose parent chains are finite and acyclic
(witnessed by a rank function decreasing along parent edges and bounded
by the chain fuel) and whose initial-transition targets are strict
descendants of their states, dispatching a transition terminates — the
initial-transition cascade cannot run forever; the cascade is taken
exactly when the entry phase was non-empty and the final current state
has an initial transition defined; and the dispatch never enters the
same state twice. -/
theorem claim_C4_cascade_terminates {g : Graph} {r : Nat → Nat} {cf fuel : Nat}
    {m : Machine} {t : Transition} {c b L : Nat} {u v w : List Nat}
    (hR : RanksOK g r cf) (hI : InitOK g cf)
    (hcur : m.mCurrentState = some c)
    (hbdef : t.target.getD c = b)
    (hcc : upChain g cf (some c) = some (u ++ L :: w))
    (hbb : upChain g cf (some b) = some (v ++ L :: w))
    (hmax : ∀ z, u.getLast? = some z → v.getLast? ≠ some z)
    (hfuel : cf ≤ fuel) :
    (∃ m2, (DoTransition g cf fuel m t).2.2 = some (m2, true)) ∧
    (DoTransition g cf fuel m t).2.1.Nodup ∧
    (isCascade (doTransitionStep g cf m t).2.2 = true ↔
      (v ≠ [] ∧ (initTargetOf g b).isSome = true)) := by
  have hnd := chain_nodup hR hcc
  have hLu : L ∉ u := by
    obtain ⟨h1, h2, hdisj⟩ := List.nodup_append.mp hnd
    exact fun hm => hdisj hm (List.mem_cons_self _ _)
  have hspec := doTransitionStep_spec hcur hbdef hcc hbb hmax hLu
  obtain ⟨fb, sb, restb, hfb, hgb, hub, hlb⟩ := upChain_some_cons hbb
  cases v with
  | nil =>
    have hres : doTransitionStep g cf m t =
        (TraceItem.log Severity.info "transition" ::
           (exitPhaseSpec g m.mOnExit u ++ optCall TraceItem.callAction t.action ++
            entryPhaseSpec g m.mOnEntry [].reverse),
         ([] : List Nat).reverse,
         StepRes.ret { m with mCurrentState := some b } true) := by
      rw [hspec]
      rfl
    rw [DoTransition_ret_eq hres]
    refine ⟨⟨_, rfl⟩, by simp, ?_⟩
    rw [hres]
    simp [isCascade]
  | cons b0 v2 =>
    have hb0 : b0 = b := by
      have h2 := hlb
      simp only [List.cons_append, List.cons.injEq] at h2
      exact h2.1
    subst hb0
    have hpwb := chain_pairwise hR hbb
    obtain ⟨hpw1, hpw2, hcross⟩ := List.pairwise_append.mp (by exact hpwb)
    have hrev : ((b0 :: v2).reverse).Pairwise (fun a b2 => r a < r b2) := by
      rw [List.pairwise_reverse]
      exact hpw1
    have hxle : ∀ x ∈ b0 :: v2, r x ≤ r b0 := by
      intro x hx
      rcases List.mem_cons.mp hx with he | hx2
      · rw [he]
      · exact le_of_lt (List.rel_of_pairwise_cons hpw1 hx2)
    cases hit : initTargetOf g b0 with
    | none =>
      have hres : doTransitionStep g cf m t =
          (TraceItem.log Severity.info "transition" ::
             (exitPhaseSpec g m.mOnExit u ++ optCall TraceItem.callAction t.action ++
              entryPhaseSpec g m.mOnEntry (b0 :: v2).reverse),
           (b0 :: v2).reverse,
           StepRes.ret { m with mCurrentState := some b0 } true) := by
        rw [hspec]
        simp [hit]
      rw [DoTransition_ret_eq hres]
      refine ⟨⟨_, rfl⟩, pairwise_lt_nodup hrev, ?_⟩
      rw [hres]
      simp [isCascade, hit]
    | some d2 =>
      have ht2 : (initTransOf g b0).target = some d2 := by
        unfold initTransOf
        rw [hgb]
        unfold initTargetOf at hit
        rw [hgb] at hit
        simpa using hit
      obtain ⟨p1, p2, hch2, hp1⟩ := descOK_unpack hI hgb hit
      obtain ⟨fd2, sd2, restd2, hfd2, hgd2, hud2, hld2⟩ := upChain_some_cons hch2
      have hrd2cf : r d2 < cf := rank_lt_cf hR hgd2
      have hfuel1 : 1 ≤ fuel := by omega
      obtain ⟨f2, rfl⟩ : ∃ f2, fuel = f2 + 1 := ⟨fuel - 1, by omega⟩
      have hres : doTransitionStep g cf m t =
          (TraceItem.log Severity.info "transition" ::
             (exitPhaseSpec g m.mOnExit u ++ optCall TraceItem.callAction t.action ++
              entryPhaseSpec g m.mOnEntry (b0 :: v2).reverse),
           (b0 :: v2).reverse,
           StepRes.cascade { m with mCurrentState := some b0 } (initTransOf g b0)) := by
        rw [hspec]
        simp [hit]
      obtain ⟨hterm, hpair2, hgt2⟩ := cascade_terminates hR hI f2
        { m with mCurrentState := some b0 } (initTransOf g b0) b0 d2 p1 p2
        rfl ht2 hch2 hp1 (by omega)
      rw [DoTransition_cascade_eq hres]
      refine ⟨?_, ?_, ?_⟩
      · obtain ⟨m2, hm2⟩ := hterm
        exact ⟨m2, by simpa using hm2⟩
      · simp only
        refine pairwise_lt_nodup (r := r) ?_
        rw [List.pairwise_append]
        refine ⟨hrev, hpair2, ?_⟩
        intro a ha bb hbb2
        have h1 : r a ≤ r b0 := hxle a (List.mem_reverse.mp ha)
        have h2 : r b0 < r bb := hgt2 bb hbb2
        omega
      · rw [hres]
        simp [isCascade, hit]

/-- The depth of each door-graph state, a rank function witnessing that
its parent chains are finite and acyclic. -/
def doorRank (i : Nat) : Nat := [0, 1, 2, 2, 1].getD i 0

/-- C4 witness: `Close` from `Opened` (4 → 1) in the door graph enters
`Closed` and cascades to `Unlocked`; the dispatch terminates, enters
`[1, 3]` (no state twice), and the cascade is taken because the entry
phase was non-empty and `Closed` has an initial transition. -/
theorem claim_C4_witness :
    RanksOK doorGraph doorRank 9 ∧
    InitOK doorGraph 9 ∧
    ({ mU with mCurrentState := some 4 } : Machine).mCurrentState = some 4 ∧
    upChain doorGraph 9 (some 4) = some ([4] ++ 0 :: []) ∧
    upChain doorGraph 9 (some 1) = some ([1] ++ 0 :: []) ∧
    ((∃ m2, (DoTransition doorGraph 9 9 { mU with mCurrentState := some 4 }
        { eventId := 3, target := some 1, action := some 123 }).2.2 = some (m2, true)) ∧
     (DoTransition doorGraph 9 9 { mU with mCurrentState := some 4 }
        { eventId := 3, target := some 1, action := some 123 }).2.1.Nodup ∧
     (isCascade (doTransitionStep doorGraph 9 { mU with mCurrentState := some 4 }
          { eventId := 3, target := some 1, action := some 123 }).2.2 = true ↔
       ([1] ≠ ([] : List Nat) ∧ (initTargetOf doorGraph 1).isSome = true))) :=
  ⟨by unfold RanksOK; decide, by unfold InitOK; decide, rfl, by decide, by decide,
    claim_C4_cascade_terminates (r := doorRank) (b := 1) (L := 0)
      (u := [4]) (v := [1]) (w := [])
      (by unfold RanksOK; decide) (by unfold InitOK; decide) rfl rfl
      (by decide) (by decide)
      (by intro z hz; simp at hz; subst hz; decide) (by decide)⟩
